import Mathlib

/-!
Shallow embedding of the vvtuner pitch pipeline.

The repository ships a single source file, `src/App.tsx`, which imports the
frequency-to-pitch mapper (`getPitchedNote`, `ACCIDENTAL_MODE`, `IPitchedNote`)
from `./pitch.service`; that file is not part of the sources available here, so
the mapper is modelled from the specification (sections 3 and 4.1 of spec.md).
The App-level derived state (`isAccuracyGoodEnough`, the tracker interpolation
and colors, `onRecordingData`, `onPressAccidentalToggleButton`) is embedded
directly from `src/App.tsx`.
-/

namespace VVTuner

/-- Modelled from the spec: the seven natural letter names of `IPitchedNote.note`
(spec §3, `pitch.service` is missing from the sources). -/
inductive NoteLetter
| A
| B
| C
| D
| E
| F
| G
deriving DecidableEq

/-- Modelled from the spec: the accidental of a `IPitchedNote`
(spec §3, `pitch.service` is missing from the sources). -/
inductive Accidental
| natural
| sharp
| flat
deriving DecidableEq

/-- Modelled from the spec: the accidental naming preference SHARP | FLAT
(spec §3, `pitch.service` is missing from the sources; `App.tsx` imports
`ACCIDENTAL_MODE` from it). -/
inductive ACCIDENTAL_MODE
| SHARP
| FLAT
deriving DecidableEq

/-- Modelled from the spec: the `IPitchedNote` record returned by the mapper
(spec §3; field set as used by `App.tsx`). -/
structure IPitchedNote where
  accidental : Accidental
  cents : ℝ
  frequency : ℝ
  note : NoteLetter
  octave : ℤ

/-- Modelled from the spec: the single error kind of the mapper (spec §7). -/
inductive PitchError
| InvalidFrequency
deriving DecidableEq

/-- Modelled from the spec: `REFERENCE_FREQ = 440.0` Hz (spec §4.1 step 1). -/
def REFERENCE_FREQ : ℝ := 440

/-- Modelled from the spec: the continuous semitone offset from the reference,
`offset = 12 * log2(frequency / REFERENCE_FREQ)` (spec §4.1 step 2). -/
noncomputable def semitoneOffset (f : ℝ) : ℝ :=
  12 * Real.logb 2 (f / REFERENCE_FREQ)

/-- Modelled from the spec: rounding of the offset to the nearest integer
semitone (spec §4.1 step 3). The tie rule at exact half-semitone boundaries is
an implementer's choice (spec §9); it is fixed here as ties-toward-zero-offset
(`⌈x - 1/2⌉`), the rule under which the spec's stated range `cents ∈ (−50, 50]`
(spec §4.1 step 4, §8) holds. -/
noncomputable def roundSemitone (x : ℝ) : ℤ := ⌈x - 1 / 2⌉

/-- Modelled from the spec: pitch class index `((n mod 12) + 12) mod 12`,
anchored at A (index 0 = A) (spec §4.1 step 5). -/
def pitchClassOf (n : ℤ) : ℕ := ((n % 12 + 12) % 12).toNat

/-- Modelled from the spec: the 12-entry naming table under SHARP naming,
index 0 = A (spec §4.1 steps 5–7: A, A♯, B, C, C♯, D, D♯, E, F, F♯, G, G♯). -/
def PITCHES_SHARP : List (NoteLetter × Accidental) :=
  [(NoteLetter.A, Accidental.natural), (NoteLetter.A, Accidental.sharp),
   (NoteLetter.B, Accidental.natural), (NoteLetter.C, Accidental.natural),
   (NoteLetter.C, Accidental.sharp), (NoteLetter.D, Accidental.natural),
   (NoteLetter.D, Accidental.sharp), (NoteLetter.E, Accidental.natural),
   (NoteLetter.F, Accidental.natural), (NoteLetter.F, Accidental.sharp),
   (NoteLetter.G, Accidental.natural), (NoteLetter.G, Accidental.sharp)]

/-- Modelled from the spec: the 12-entry naming table under FLAT naming,
index 0 = A (spec §4.1 steps 5–7: A, B♭, B, C, D♭, D, E♭, E, F, G♭, G, A♭). -/
def PITCHES_FLAT : List (NoteLetter × Accidental) :=
  [(NoteLetter.A, Accidental.natural), (NoteLetter.B, Accidental.flat),
   (NoteLetter.B, Accidental.natural), (NoteLetter.C, Accidental.natural),
   (NoteLetter.D, Accidental.flat), (NoteLetter.D, Accidental.natural),
   (NoteLetter.E, Accidental.flat), (NoteLetter.E, Accidental.natural),
   (NoteLetter.F, Accidental.natural), (NoteLetter.G, Accidental.flat),
   (NoteLetter.G, Accidental.natural), (NoteLetter.A, Accidental.flat)]

/-- Modelled from the spec: resolve `note`/`accidental` from the table entry at
`pitchClass` using `mode` (spec §4.1 step 6). -/
def noteSpelling (mode : ACCIDENTAL_MODE) (n : ℤ) : NoteLetter × Accidental :=
  (match mode with
    | ACCIDENTAL_MODE.SHARP => PITCHES_SHARP
    | ACCIDENTAL_MODE.FLAT => PITCHES_FLAT).getD (pitchClassOf n)
    (NoteLetter.A, Accidental.natural)

/-- Modelled from the spec: `octave = 4 + floor((n + 9) / 12)` (spec §4.1
step 7). -/
def octaveOf (n : ℤ) : ℤ := 4 + (n + 9).fdiv 12

/-- Modelled from the spec: the successful mapping of a positive frequency,
combining steps 2–7 of spec §4.1 into the returned `IPitchedNote`. -/
noncomputable def pitchedNoteOf (f : ℝ) (mode : ACCIDENTAL_MODE) : IPitchedNote :=
  let offset := semitoneOffset f
  let n := roundSemitone offset
  { accidental := (noteSpelling mode n).2
    cents := (offset - n) * 100
    frequency := f
    note := (noteSpelling mode n).1
    octave := octaveOf n }

/-- Modelled from the spec: `getPitchedNote`, the mapper imported by `App.tsx`
from the missing `pitch.service`: a valid (positive) frequency yields the full
`IPitchedNote`, any other input fails with `InvalidFrequency` (spec §4.1, §7;
non-finite and NaN inputs have no counterpart in `ℝ`). -/
noncomputable def getPitchedNote (f : ℝ) (mode : ACCIDENTAL_MODE) :
    Except PitchError IPitchedNote :=
  if 0 < f then Except.ok (pitchedNoteOf f mode)
  else Except.error PitchError.InvalidFrequency

/-- Modelled from the spec: `f` is an exact equal-tempered pitch of the scale
anchored at A4 = 440 Hz, i.e. `440 · 2^(k/12)` for some integer `k`
(spec §1, §3; glossary entry for equal temperament). -/
def isEqualTempered (f : ℝ) : Prop :=
  ∃ k : ℤ, f = REFERENCE_FREQ * (2 : ℝ) ^ ((k : ℝ) / 12)

/-- Semitone index denoted by a letter/accidental pair, anchored at A = 0
(A=0, B=2, C=3, D=5, E=7, F=8, G=10 in the A-anchored ordering of spec §4.1
step 7). -/
def letterIndex : NoteLetter → ℤ
| NoteLetter.A => 0
| NoteLetter.B => 2
| NoteLetter.C => 3
| NoteLetter.D => 5
| NoteLetter.E => 7
| NoteLetter.F => 8
| NoteLetter.G => 10

/-- Signed semitone shift of an accidental. -/
def accidentalShift : Accidental → ℤ
| Accidental.natural => 0
| Accidental.sharp => 1
| Accidental.flat => -1

/-- Pitch class (A-anchored, 0..11) denoted by a spelled note name. -/
def pitchClassOfName (p : NoteLetter × Accidental) : ℕ :=
  ((letterIndex p.1 + accidentalShift p.2 + 12) % 12).toNat

/- Definitions embedded from `src/App.tsx`. -/

/-- `DEFAULT_NOTE` from `src/App.tsx` lines 19–25. -/
def DEFAULT_NOTE : IPitchedNote :=
  { accidental := Accidental.natural
    cents := 0
    frequency := 440
    note := NoteLetter.A
    octave := 4 }

/-- `ACCURACY_GOOD` from `src/App.tsx` line 29. -/
def ACCURACY_GOOD : ℝ := 10

/-- `isAccuracyGoodEnough` from `src/App.tsx` lines 55–57: the `cents != null`
guard always passes in the model, where `cents` is a real number. -/
def isAccuracyGoodEnough (note : IPitchedNote) : Prop :=
  -ACCURACY_GOOD < note.cents ∧ note.cents < ACCURACY_GOOD

noncomputable instance (note : IPitchedNote) :
    Decidable (isAccuracyGoodEnough note) :=
  inferInstanceAs
    (Decidable (-ACCURACY_GOOD < note.cents ∧ note.cents < ACCURACY_GOOD))

/-- `interp` from `src/App.tsx` line 59: if close enough, lock to center. -/
noncomputable def interp (note : IPitchedNote) : ℝ :=
  if isAccuracyGoodEnough note then 0 else note.cents / 50

/-- `absCent` from `src/App.tsx` line 60. -/
noncomputable def absCent (note : IPitchedNote) : ℝ := |note.cents|

/-- `red` from `src/App.tsx` line 61: `Math.floor(absCent / 50 * 50) + 200`. -/
noncomputable def trackerRed (note : IPitchedNote) : ℤ :=
  ⌊absCent note / 50 * 50⌋ + 200

/-- `green` from `src/App.tsx` line 62: `Math.floor((1 - absCent / 50) * 255)`. -/
noncomputable def trackerGreen (note : IPitchedNote) : ℤ :=
  ⌊(1 - absCent note / 50) * 255⌋

/-- The audio-driven state of the `App` component: the `frequency` ref
(line 41, `number | null`) and the `currentFrequency` state (lines 49–51). -/
structure AppAudioState where
  frequencyRef : Option ℝ
  currentFrequency : ℝ

/-- The initial audio state of `App`: the ref starts unset and
`currentFrequency` starts at `DEFAULT_NOTE.frequency` (lines 41, 49–51). -/
def initialAppAudioState : AppAudioState :=
  { frequencyRef := none
    currentFrequency := DEFAULT_NOTE.frequency }

/-- `onRecordingData` from `src/App.tsx` lines 90–98: the YIN result for the
buffer (a frequency, or nothing when no pitch is found) is stored in the
`frequency` ref; `setCurrentFrequency` runs only when the ref is non-null. -/
def onRecordingData (pitch : Option ℝ) (s : AppAudioState) : AppAudioState :=
  let s1 : AppAudioState := { s with frequencyRef := pitch }
  match s1.frequencyRef with
  | some p => { s1 with currentFrequency := p }
  | none => s1

/-- The audio state after a sequence of recording-data events, starting from
the initial state of `App`. -/
def runRecordingEvents (events : List (Option ℝ)) : AppAudioState :=
  events.foldl (fun s e => onRecordingData e s) initialAppAudioState

/-- `onPressAccidentalToggleButton` from `src/App.tsx` lines 71–77:
`accidentalMode !== SHARP ? SHARP : FLAT`. -/
def onPressAccidentalToggleButton (accidentalMode : ACCIDENTAL_MODE) :
    ACCIDENTAL_MODE :=
  if accidentalMode ≠ ACCIDENTAL_MODE.SHARP then ACCIDENTAL_MODE.SHARP
  else ACCIDENTAL_MODE.FLAT

/- Helper lemmas. -/

/-- Bounding `log₂` from above by a rational via an integer power: if
`x ^ k ≤ 2` then `log₂ x ≤ 1 / k`. -/
theorem logb_le_inv_of_pow_le (x : ℝ) (k : ℕ) (hx : 0 < x) (hk : 0 < k)
    (h : x ^ k ≤ 2) : Real.logb 2 x ≤ 1 / k := by
  have h1 : Real.logb 2 (x ^ k) ≤ Real.logb 2 2 :=
    Real.logb_le_logb_of_le (by norm_num) (pow_pos hx k) h
  rw [Real.logb_pow, Real.logb_self_eq_one (by norm_num)] at h1
  have hk' : (0 : ℝ) < k := by exact_mod_cast hk
  rw [le_div_iff₀ hk']
  linarith [h1]

/-- Bounding `log₂` from below by a rational via an integer power: if
`2 < x ^ k` then `1 / k < log₂ x`. -/
theorem inv_lt_logb_of_lt_pow (x : ℝ) (k : ℕ) (hk : 0 < k)
    (h : 2 < x ^ k) : 1 / k < Real.logb 2 x := by
  have h1 : Real.logb 2 2 < Real.logb 2 (x ^ k) :=
    Real.logb_lt_logb (by norm_num) (by norm_num) h
  rw [Real.logb_pow, Real.logb_self_eq_one (by norm_num)] at h1
  have hk' : (0 : ℝ) < k := by exact_mod_cast hk
  rw [div_lt_iff₀ hk']
  linarith [h1]

/-- The semitone rounding lands on `n` exactly on the half-open band
`(n − 1/2, n + 1/2]`. -/
theorem roundSemitone_eq_iff (x : ℝ) (n : ℤ) :
    roundSemitone x = n ↔ (n : ℝ) - 1 / 2 < x ∧ x ≤ n + 1 / 2 := by
  unfold roundSemitone
  rw [Int.ceil_eq_iff]
  constructor <;> rintro ⟨h1, h2⟩ <;> constructor <;> linarith

/-- Rounding an exact integer offset is the identity. -/
theorem roundSemitone_intCast (k : ℤ) : roundSemitone (k : ℝ) = k := by
  rw [roundSemitone_eq_iff]
  constructor <;> norm_num

/-- The continuous offset of the reference frequency itself is `0`. -/
theorem semitoneOffset_440 : semitoneOffset 440 = 0 := by
  unfold semitoneOffset REFERENCE_FREQ
  norm_num

/-- 440 Hz rounds to semitone `0` (A4 itself). -/
theorem roundSemitone_offset_440 : roundSemitone (semitoneOffset 440) = 0 := by
  rw [semitoneOffset_440, roundSemitone_eq_iff]
  norm_num

/-- 445 Hz rounds to semitone `0` (a slightly sharp A4). -/
theorem roundSemitone_offset_445 : roundSemitone (semitoneOffset 445) = 0 := by
  rw [roundSemitone_eq_iff]
  unfold semitoneOffset REFERENCE_FREQ
  constructor
  · have h : (0 : ℝ) < Real.logb 2 ((445 : ℝ) / 440) :=
      Real.logb_pos (by norm_num) (by norm_num)
    push_cast
    nlinarith
  · have h := logb_le_inv_of_pow_le ((445 : ℝ) / 440) 24 (by norm_num)
      (by norm_num) (by norm_num)
    push_cast
    push_cast at h
    nlinarith

/-- 470 Hz rounds to semitone `1` (nearest pitch A♯4/B♭4). -/
theorem roundSemitone_offset_470 : roundSemitone (semitoneOffset 470) = 1 := by
  rw [roundSemitone_eq_iff]
  unfold semitoneOffset REFERENCE_FREQ
  have h1 := inv_lt_logb_of_lt_pow ((470 : ℝ) / 440) 24 (by norm_num)
    (by norm_num)
  have h2 := logb_le_inv_of_pow_le ((470 : ℝ) / 440) 8 (by norm_num)
    (by norm_num) (by norm_num)
  push_cast at h1 h2 ⊢
  constructor <;> nlinarith

/-- 466.16 Hz rounds to semitone `1` (nearest pitch A♯4/B♭4). -/
theorem roundSemitone_offset_46616 :
    roundSemitone (semitoneOffset 466.16) = 1 := by
  rw [roundSemitone_eq_iff]
  unfold semitoneOffset REFERENCE_FREQ
  have h1 := inv_lt_logb_of_lt_pow ((466.16 : ℝ) / 440) 24 (by norm_num)
    (by norm_num)
  have h2 := logb_le_inv_of_pow_le ((466.16 : ℝ) / 440) 8 (by norm_num)
    (by norm_num) (by norm_num)
  push_cast at h1 h2 ⊢
  constructor <;> nlinarith

/-- The `cents` field of a successful mapping, unfolded. -/
theorem pitchedNoteOf_cents (f : ℝ) (mode : ACCIDENTAL_MODE) :
    (pitchedNoteOf f mode).cents =
      (semitoneOffset f - roundSemitone (semitoneOffset f)) * 100 := rfl

/-- The `octave` field of a successful mapping, unfolded. -/
theorem pitchedNoteOf_octave (f : ℝ) (mode : ACCIDENTAL_MODE) :
    (pitchedNoteOf f mode).octave = octaveOf (roundSemitone (semitoneOffset f)) :=
  rfl

/-- The `frequency` field of a successful mapping is the input echoed back. -/
theorem pitchedNoteOf_frequency (f : ℝ) (mode : ACCIDENTAL_MODE) :
    (pitchedNoteOf f mode).frequency = f := rfl

/-- The `note` field of a successful mapping, unfolded. -/
theorem pitchedNoteOf_note (f : ℝ) (mode : ACCIDENTAL_MODE) :
    (pitchedNoteOf f mode).note =
      (noteSpelling mode (roundSemitone (semitoneOffset f))).1 := rfl

/-- The `accidental` field of a successful mapping, unfolded. -/
theorem pitchedNoteOf_accidental (f : ℝ) (mode : ACCIDENTAL_MODE) :
    (pitchedNoteOf f mode).accidental =
      (noteSpelling mode (roundSemitone (semitoneOffset f))).2 := rfl

/-- The rounding residue always lies in `(−1/2, 1/2]`. -/
theorem sub_roundSemitone_bounds (x : ℝ) :
    -(1 / 2) < x - roundSemitone x ∧ x - roundSemitone x ≤ 1 / 2 := by
  unfold roundSemitone
  constructor
  · have h := Int.ceil_lt_add_one (x - 1 / 2)
    linarith
  · have h := Int.le_ceil (x - 1 / 2)
    linarith

/-- A positive frequency is an exact equal-tempered pitch precisely when its
continuous semitone offset is an integer. -/
theorem isEqualTempered_iff_offset_int (f : ℝ) (hf : 0 < f) :
    isEqualTempered f ↔ ∃ k : ℤ, semitoneOffset f = (k : ℝ) := by
  constructor
  · rintro ⟨k, rfl⟩
    refine ⟨k, ?_⟩
    unfold semitoneOffset REFERENCE_FREQ
    have h1 : (440 : ℝ) * (2 : ℝ) ^ ((k : ℝ) / 12) / 440 =
        (2 : ℝ) ^ ((k : ℝ) / 12) := by ring
    rw [h1, Real.logb_rpow (by norm_num) (by norm_num)]
    ring
  · rintro ⟨k, hk⟩
    refine ⟨k, ?_⟩
    have h0 : (0 : ℝ) < f / REFERENCE_FREQ := by
      unfold REFERENCE_FREQ
      positivity
    have h2 : (2 : ℝ) ^ Real.logb 2 (f / REFERENCE_FREQ) = f / REFERENCE_FREQ :=
      Real.rpow_logb (by norm_num) (by norm_num) h0
    have h3 : Real.logb 2 (f / REFERENCE_FREQ) = (k : ℝ) / 12 := by
      unfold semitoneOffset at hk
      linarith
    rw [h3] at h2
    unfold REFERENCE_FREQ at h2 ⊢
    rw [eq_div_iff (by norm_num : (440 : ℝ) ≠ 0)] at h2
    linarith [h2]

/-- The pitch class index is always below 12. -/
theorem pitchClassOf_lt (n : ℤ) : pitchClassOf n < 12 := by
  unfold pitchClassOf
  omega

/-- Every table spelling denotes exactly the pitch class it is stored at. -/
theorem pitchClassOfName_noteSpelling (mode : ACCIDENTAL_MODE) (n : ℤ) :
    pitchClassOfName (noteSpelling mode n) = pitchClassOf n := by
  have hp : pitchClassOf n < 12 := pitchClassOf_lt n
  unfold noteSpelling
  generalize hq : pitchClassOf n = p at hp ⊢
  cases mode <;> interval_cases p <;> decide

/-- The SHARP and FLAT tables agree on the seven natural pitch classes. -/
theorem tables_agree_on_naturals (p : ℕ) (hp : p < 12)
    (hnat : p ∈ ([0, 2, 3, 5, 7, 8, 10] : List ℕ)) :
    PITCHES_SHARP.getD p (NoteLetter.A, Accidental.natural) =
      PITCHES_FLAT.getD p (NoteLetter.A, Accidental.natural) := by
  interval_cases p <;> revert hnat <;> decide

/-- Mode only affects which table is consulted; on natural pitch classes the
spelling is mode-independent. -/
theorem noteSpelling_natural (m1 m2 : ACCIDENTAL_MODE) (n : ℤ)
    (hnat : pitchClassOf n ∈ ([0, 2, 3, 5, 7, 8, 10] : List ℕ)) :
    noteSpelling m1 n = noteSpelling m2 n := by
  have hp : pitchClassOf n < 12 := pitchClassOf_lt n
  have hagree := tables_agree_on_naturals (pitchClassOf n) hp hnat
  cases m1 <;> cases m2 <;>
    first
      | rfl
      | exact hagree
      | exact hagree.symm

/-- `roundSemitone` at `0`. -/
theorem roundSemitone_zero : roundSemitone 0 = 0 := by
  rw [roundSemitone_eq_iff]
  norm_num

/-- The mapping at exactly 440 Hz, under either mode, is the default A4 note. -/
theorem pitchedNoteOf_440 (mode : ACCIDENTAL_MODE) :
    pitchedNoteOf 440 mode = DEFAULT_NOTE := by
  have hoff : semitoneOffset 440 = 0 := semitoneOffset_440
  have hspell : noteSpelling mode 0 = (NoteLetter.A, Accidental.natural) := by
    cases mode <;> rfl
  have hoct : octaveOf 0 = 4 := by decide
  simp only [pitchedNoteOf, hoff, roundSemitone_zero, hspell, hoct,
    DEFAULT_NOTE]
  norm_num

/- Claim theorems. -/

/-- C1: for every positive frequency `f` and either accidental mode,
`getPitchedNote f mode` succeeds with `pitchedNoteOf f mode`, whose `cents`
field lies in the half-open interval `(−50, 50]`, and `cents = 0` exactly when
`f` is an exact equal-tempered pitch of the A4 = 440 Hz scale. -/
theorem cents_range_and_exactness (f : ℝ) (mode : ACCIDENTAL_MODE)
    (hf : 0 < f) :
    getPitchedNote f mode = Except.ok (pitchedNoteOf f mode) ∧
    (-50 < (pitchedNoteOf f mode).cents ∧ (pitchedNoteOf f mode).cents ≤ 50) ∧
    ((pitchedNoteOf f mode).cents = 0 ↔ isEqualTempered f) := by
  refine ⟨?_, ?_, ?_⟩
  · unfold getPitchedNote
    rw [if_pos hf]
  · rw [pitchedNoteOf_cents]
    have h := sub_roundSemitone_bounds (semitoneOffset f)
    constructor <;> nlinarith [h.1, h.2]
  · rw [pitchedNoteOf_cents, isEqualTempered_iff_offset_int f hf]
    constructor
    · intro h
      rcases mul_eq_zero.mp h with h0 | h0
      · exact ⟨roundSemitone (semitoneOffset f), by linarith [h0]⟩
      · norm_num at h0
    · rintro ⟨k, hk⟩
      rw [hk, roundSemitone_intCast]
      simp

/-- Witness for C1 at the concrete input `f = 440`, `mode = SHARP`. -/
theorem cents_range_and_exactness_witness :
    getPitchedNote 440 ACCIDENTAL_MODE.SHARP =
      Except.ok (pitchedNoteOf 440 ACCIDENTAL_MODE.SHARP) ∧
    (-50 < (pitchedNoteOf 440 ACCIDENTAL_MODE.SHARP).cents ∧
      (pitchedNoteOf 440 ACCIDENTAL_MODE.SHARP).cents ≤ 50) ∧
    ((pitchedNoteOf 440 ACCIDENTAL_MODE.SHARP).cents = 0 ↔
      isEqualTempered 440) :=
  cents_range_and_exactness 440 ACCIDENTAL_MODE.SHARP (by norm_num)

/-- C4: `getPitchedNote 440 mode`, for either mode, returns exactly the
default note A natural, octave 4, cents 0, frequency 440. -/
theorem getPitchedNote_440_default (mode : ACCIDENTAL_MODE) :
    getPitchedNote 440 mode = Except.ok DEFAULT_NOTE := by
  unfold getPitchedNote
  rw [if_pos (by norm_num : (0 : ℝ) < 440), pitchedNoteOf_440]

/-- C5: a non-positive frequency fails with `InvalidFrequency`, and there is no
partial failure: every positive frequency yields the full, consistent
`pitchedNoteOf f mode` (non-finite and NaN inputs have no counterpart in the
real-number model). -/
theorem invalidFrequency_on_nonpositive (f : ℝ) (mode : ACCIDENTAL_MODE) :
    (f ≤ 0 → getPitchedNote f mode = Except.error PitchError.InvalidFrequency)
    ∧ (0 < f → getPitchedNote f mode = Except.ok (pitchedNoteOf f mode)) := by
  constructor
  · intro h
    unfold getPitchedNote
    rw [if_neg (not_lt.mpr h)]
  · intro h
    unfold getPitchedNote
    rw [if_pos h]

/-- Witness for C5 at the concrete invalid inputs `−10` and `0` and the valid
input `440`. -/
theorem invalidFrequency_on_nonpositive_witness :
    getPitchedNote (-10) ACCIDENTAL_MODE.SHARP =
      Except.error PitchError.InvalidFrequency ∧
    getPitchedNote 0 ACCIDENTAL_MODE.SHARP =
      Except.error PitchError.InvalidFrequency ∧
    getPitchedNote 440 ACCIDENTAL_MODE.SHARP =
      Except.ok (pitchedNoteOf 440 ACCIDENTAL_MODE.SHARP) :=
  ⟨(invalidFrequency_on_nonpositive (-10) ACCIDENTAL_MODE.SHARP).1
      (by norm_num),
   (invalidFrequency_on_nonpositive 0 ACCIDENTAL_MODE.SHARP).1 (by norm_num),
   (invalidFrequency_on_nonpositive 440 ACCIDENTAL_MODE.SHARP).2
      (by norm_num)⟩

/-- C6: `getPitchedNote` is deterministic: two calls with identical
`(frequency, mode)` inputs return identical results, with no dependence on any
hidden state or call history (the embedding of the mapper is a pure function of
its two arguments only). -/
theorem getPitchedNote_deterministic (f : ℝ) (mode : ACCIDENTAL_MODE)
    (r1 r2 : Except PitchError IPitchedNote)
    (h1 : getPitchedNote f mode = r1) (h2 : getPitchedNote f mode = r2) :
    r1 = r2 := h1.symm.trans h2

/-- Witness for C6 at the concrete input `f = 440`, `mode = SHARP`. -/
theorem getPitchedNote_deterministic_witness :
    getPitchedNote 440 ACCIDENTAL_MODE.SHARP =
      getPitchedNote 440 ACCIDENTAL_MODE.SHARP :=
  getPitchedNote_deterministic 440 ACCIDENTAL_MODE.SHARP
    (getPitchedNote 440 ACCIDENTAL_MODE.SHARP)
    (getPitchedNote 440 ACCIDENTAL_MODE.SHARP) rfl rfl

/-- C2: the `octave` field is `4 + floor((n + 9) / 12)` of the rounded
semitone distance `n` from A4; in particular `n = 0` is octave 4, `n = 3` is
octave 5 (note C), `n = −9` is octave 4 (note C), `n = −10` is octave 3
(note B): the octave boundary falls between B and C, not between G and A. -/
theorem octave_formula_and_boundary :
    (∀ (f : ℝ) (mode : ACCIDENTAL_MODE),
        (pitchedNoteOf f mode).octave =
          4 + (roundSemitone (semitoneOffset f) + 9).fdiv 12) ∧
    octaveOf 0 = 4 ∧ octaveOf 3 = 5 ∧ octaveOf (-9) = 4 ∧ octaveOf (-10) = 3 ∧
    (∀ mode, noteSpelling mode 3 = (NoteLetter.C, Accidental.natural)) ∧
    (∀ mode, noteSpelling mode (-9) = (NoteLetter.C, Accidental.natural)) ∧
    (∀ mode, noteSpelling mode (-10) = (NoteLetter.B, Accidental.natural)) := by
  refine ⟨fun f mode => rfl, by decide, by decide, by decide, by decide,
    ?_, ?_, ?_⟩ <;>
    (intro mode; cases mode <;> decide)

/-- C3: changing only the accidental mode never changes the underlying
semitone (as the pitch class denoted by the spelled name), the octave, the
cents, or the echoed frequency; on the seven natural pitch classes the two
results are fully identical; 466.16 Hz is spelled A♯4 under SHARP and B♭4
under FLAT with the same cents. -/
theorem mode_independence (f : ℝ) (m1 m2 : ACCIDENTAL_MODE) (_hf : 0 < f) :
    ((pitchedNoteOf f m1).octave = (pitchedNoteOf f m2).octave ∧
      (pitchedNoteOf f m1).cents = (pitchedNoteOf f m2).cents ∧
      (pitchedNoteOf f m1).frequency = (pitchedNoteOf f m2).frequency ∧
      pitchClassOfName
          ((pitchedNoteOf f m1).note, (pitchedNoteOf f m1).accidental) =
        pitchClassOfName
          ((pitchedNoteOf f m2).note, (pitchedNoteOf f m2).accidental)) ∧
    (pitchClassOf (roundSemitone (semitoneOffset f)) ∈
        ([0, 2, 3, 5, 7, 8, 10] : List ℕ) →
      pitchedNoteOf f m1 = pitchedNoteOf f m2) ∧
    ((pitchedNoteOf 466.16 ACCIDENTAL_MODE.SHARP).note = NoteLetter.A ∧
      (pitchedNoteOf 466.16 ACCIDENTAL_MODE.SHARP).accidental =
        Accidental.sharp ∧
      (pitchedNoteOf 466.16 ACCIDENTAL_MODE.SHARP).octave = 4 ∧
      (pitchedNoteOf 466.16 ACCIDENTAL_MODE.FLAT).note = NoteLetter.B ∧
      (pitchedNoteOf 466.16 ACCIDENTAL_MODE.FLAT).accidental =
        Accidental.flat ∧
      (pitchedNoteOf 466.16 ACCIDENTAL_MODE.FLAT).octave = 4 ∧
      (pitchedNoteOf 466.16 ACCIDENTAL_MODE.SHARP).cents =
        (pitchedNoteOf 466.16 ACCIDENTAL_MODE.FLAT).cents) := by
  refine ⟨⟨rfl, rfl, rfl, ?_⟩, ?_, ?_⟩
  · have e1 : ((pitchedNoteOf f m1).note, (pitchedNoteOf f m1).accidental) =
        noteSpelling m1 (roundSemitone (semitoneOffset f)) := rfl
    have e2 : ((pitchedNoteOf f m2).note, (pitchedNoteOf f m2).accidental) =
        noteSpelling m2 (roundSemitone (semitoneOffset f)) := rfl
    rw [e1, e2, pitchClassOfName_noteSpelling, pitchClassOfName_noteSpelling]
  · intro hnat
    simp only [pitchedNoteOf]
    rw [noteSpelling_natural m1 m2 (roundSemitone (semitoneOffset f)) hnat]
  · have h := roundSemitone_offset_46616
    refine ⟨?_, ?_, ?_, ?_, ?_, ?_, rfl⟩ <;>
      first
        | (rw [pitchedNoteOf_note, h]; decide)
        | (rw [pitchedNoteOf_accidental, h]; decide)
        | (rw [pitchedNoteOf_octave, h]; decide)

/-- Witness for C3 at the concrete input `f = 440` (a natural pitch class),
modes SHARP and FLAT. -/
theorem mode_independence_witness :
    pitchedNoteOf 440 ACCIDENTAL_MODE.SHARP =
      pitchedNoteOf 440 ACCIDENTAL_MODE.FLAT ∧
    (pitchedNoteOf 440 ACCIDENTAL_MODE.SHARP).cents =
      (pitchedNoteOf 440 ACCIDENTAL_MODE.FLAT).cents := by
  have h := mode_independence 440 ACCIDENTAL_MODE.SHARP ACCIDENTAL_MODE.FLAT
    (by norm_num)
  refine ⟨h.2.1 ?_, h.1.2.1⟩
  rw [roundSemitone_offset_440]
  decide

/-- C7: for `f1 < f2` rounding to the same semitone, the cents strictly
increase with frequency; when `f2` falls in the next semitone band instead,
the cents wrap: the new value is the continuous advance of the old one minus a
full 100-cent semitone (so just past a band edge it lands near −50 whereas
just before the edge it was near +50). -/
theorem cents_monotone_within_band_and_wrap (mode : ACCIDENTAL_MODE)
    (f1 f2 : ℝ) (h1 : 0 < f1) (h12 : f1 < f2) :
    (roundSemitone (semitoneOffset f1) = roundSemitone (semitoneOffset f2) →
      (pitchedNoteOf f1 mode).cents < (pitchedNoteOf f2 mode).cents) ∧
    (roundSemitone (semitoneOffset f2) = roundSemitone (semitoneOffset f1) + 1
      → (pitchedNoteOf f2 mode).cents =
          (pitchedNoteOf f1 mode).cents +
            (semitoneOffset f2 - semitoneOffset f1) * 100 - 100) := by
  have hmono : semitoneOffset f1 < semitoneOffset f2 := by
    unfold semitoneOffset REFERENCE_FREQ
    have hlt : Real.logb 2 (f1 / 440) < Real.logb 2 (f2 / 440) :=
      Real.logb_lt_logb (by norm_num) (by positivity) (by linarith)
    linarith
  constructor
  · intro heq
    rw [pitchedNoteOf_cents, pitchedNoteOf_cents, ← heq]
    nlinarith [hmono]
  · intro heq
    rw [pitchedNoteOf_cents, pitchedNoteOf_cents, heq]
    push_cast
    ring

/-- Witness for C7: 440 Hz and 445 Hz share semitone band 0 and the cents
strictly increase; 470 Hz lies in band 1 and its cents are the continuous
advance from 440 Hz minus 100. -/
theorem cents_monotone_within_band_and_wrap_witness :
    (pitchedNoteOf 440 ACCIDENTAL_MODE.SHARP).cents <
      (pitchedNoteOf 445 ACCIDENTAL_MODE.SHARP).cents ∧
    (pitchedNoteOf 470 ACCIDENTAL_MODE.SHARP).cents =
      (pitchedNoteOf 440 ACCIDENTAL_MODE.SHARP).cents +
        (semitoneOffset 470 - semitoneOffset 440) * 100 - 100 := by
  constructor
  · exact (cents_monotone_within_band_and_wrap ACCIDENTAL_MODE.SHARP 440 445
      (by norm_num) (by norm_num)).1
      (by rw [roundSemitone_offset_440, roundSemitone_offset_445])
  · exact (cents_monotone_within_band_and_wrap ACCIDENTAL_MODE.SHARP 440 470
      (by norm_num) (by norm_num)).2
      (by rw [roundSemitone_offset_440, roundSemitone_offset_470]; decide)

/-- Invariant of the recording loop: after any sequence of events, the current
frequency is either untouched or was delivered by some event. -/
theorem foldl_onRecordingData_mem (events : List (Option ℝ))
    (s : AppAudioState) :
    (events.foldl (fun t e => onRecordingData e t) s).currentFrequency =
      s.currentFrequency ∨
    some ((events.foldl (fun t e => onRecordingData e t) s).currentFrequency)
      ∈ events := by
  induction events generalizing s with
  | nil => exact Or.inl rfl
  | cons e es ih =>
    rw [List.foldl_cons]
    rcases ih (onRecordingData e s) with h | h
    · cases e with
      | none =>
        left
        rw [h]
        rfl
      | some p =>
        right
        rw [h]
        exact List.mem_cons_self _ _
    · right
      exact List.mem_cons_of_mem e h

/-- C8: a `null`/`undefined` YIN result never reaches `setCurrentFrequency`:
on a no-pitch event the current frequency is left unchanged (only the ref is
overwritten), a detected pitch becomes the new current frequency, and after
any event sequence the current frequency `getPitchedNote` receives is either
the initial 440 or a previously detected non-null estimate. -/
theorem no_pitch_never_reaches_mapper :
    (∀ s : AppAudioState,
        (onRecordingData none s).currentFrequency = s.currentFrequency ∧
        (onRecordingData none s).frequencyRef = none) ∧
    (∀ (p : ℝ) (s : AppAudioState),
        (onRecordingData (some p) s).currentFrequency = p ∧
        (onRecordingData (some p) s).frequencyRef = some p) ∧
    (∀ events : List (Option ℝ),
        (runRecordingEvents events).currentFrequency = DEFAULT_NOTE.frequency
        ∨ some ((runRecordingEvents events).currentFrequency) ∈ events) := by
  refine ⟨fun s => ⟨rfl, rfl⟩, fun p s => ⟨rfl, rfl⟩, fun events => ?_⟩
  exact foldl_onRecordingData_mem events initialAppAudioState

/-- C9: the "close enough" lock, the tracker interpolation, and the tracker
color channels are functions of `cents` alone: `isAccuracyGoodEnough` holds
exactly on `−10 < cents < 10`, in which case the interpolation is locked to
`0`, otherwise it is `cents / 50`; equal cents give equal lock and
interpolation, and equal `|cents|` give equal color channels. -/
theorem accuracy_lock_from_cents (note : IPitchedNote) :
    (isAccuracyGoodEnough note ↔ -10 < note.cents ∧ note.cents < 10) ∧
    (isAccuracyGoodEnough note → interp note = 0) ∧
    (¬isAccuracyGoodEnough note → interp note = note.cents / 50) ∧
    (∀ note2 : IPitchedNote, note2.cents = note.cents →
        (isAccuracyGoodEnough note2 ↔ isAccuracyGoodEnough note) ∧
        interp note2 = interp note) ∧
    (∀ note2 : IPitchedNote, |note2.cents| = |note.cents| →
        trackerRed note2 = trackerRed note ∧
        trackerGreen note2 = trackerGreen note) := by
  refine ⟨?_, ?_, ?_, ?_, ?_⟩
  · unfold isAccuracyGoodEnough ACCURACY_GOOD
    norm_num
  · intro h
    unfold interp
    rw [if_pos h]
  · intro h
    unfold interp
    rw [if_neg h]
  · intro note2 he
    have hiff : isAccuracyGoodEnough note2 ↔ isAccuracyGoodEnough note := by
      unfold isAccuracyGoodEnough
      rw [he]
    refine ⟨hiff, ?_⟩
    unfold interp
    by_cases hg : isAccuracyGoodEnough note
    · rw [if_pos (hiff.mpr hg), if_pos hg]
    · rw [if_neg (fun hx => hg (hiff.mp hx)), if_neg hg, he]
  · intro note2 he
    constructor
    · unfold trackerRed absCent
      rw [he]
    · unfold trackerGreen absCent
      rw [he]

/-- Witness for C9 at the concrete input `DEFAULT_NOTE` (cents 0): the lock
holds and the interpolation is locked to center. -/
theorem accuracy_lock_from_cents_witness :
    isAccuracyGoodEnough DEFAULT_NOTE ∧ interp DEFAULT_NOTE = 0 := by
  have h := accuracy_lock_from_cents DEFAULT_NOTE
  have hg : isAccuracyGoodEnough DEFAULT_NOTE := by
    refine h.1.mpr ?_
    unfold DEFAULT_NOTE
    norm_num
  exact ⟨hg, h.2.1 hg⟩

/-- C10: the accidental-mode toggle maps SHARP to FLAT and any other value to
SHARP, so every press lands in {SHARP, FLAT} and two presses restore the
original mode. -/
theorem accidental_toggle_involution :
    onPressAccidentalToggleButton ACCIDENTAL_MODE.SHARP =
      ACCIDENTAL_MODE.FLAT ∧
    (∀ m, m ≠ ACCIDENTAL_MODE.SHARP →
        onPressAccidentalToggleButton m = ACCIDENTAL_MODE.SHARP) ∧
    (∀ m, onPressAccidentalToggleButton m = ACCIDENTAL_MODE.SHARP ∨
        onPressAccidentalToggleButton m = ACCIDENTAL_MODE.FLAT) ∧
    (∀ m, onPressAccidentalToggleButton (onPressAccidentalToggleButton m)
        = m) := by
  refine ⟨by decide, ?_, ?_, ?_⟩
  · intro m hm
    cases m
    · exact absurd rfl hm
    · decide
  · intro m
    cases m
    · exact Or.inr (by decide)
    · exact Or.inl (by decide)
  · intro m
    cases m <;> decide

/-- Witness for C10 at the concrete input FLAT (the only non-SHARP mode). -/
theorem accidental_toggle_involution_witness :
    onPressAccidentalToggleButton ACCIDENTAL_MODE.FLAT =
      ACCIDENTAL_MODE.SHARP :=
  accidental_toggle_involution.2.1 ACCIDENTAL_MODE.FLAT (by decide)

end VVTuner
